import Mathlib

/-!
Shallow embedding of the newsfeed ingestion-and-enrichment pipeline:
the data model (backend/models.py), the feed harvester and content scraper
(backend/tools.py, backend/agents.py), the analyst agent (backend/agents.py),
the queue coordinator (backend/main.py) and the store-layer operations
(backend/database.py).

Machine conventions: timestamps are `Int` (an abstract linear clock, in
seconds); Python strings are Lean `String`s and the Python string
operations used by the code (`s[:n]`, `len`, `lower`, `in`, `replace`)
are given explicit character-list models below; the document store is a
list of records in retrieval order; network fetches and the external
text-generation call are modelled by explicit outcome types, since their
results are inputs to the logic under verification.
-/

namespace Newsfeed

/-- The `ProcessingStatus` enum of models.py. -/
inductive ProcessingStatus where
  | pending
  | processed
  | failed
deriving DecidableEq

/-- The `BiasLabel` enum of models.py. -/
inductive BiasLabel where
  | left
  | leanLeft
  | center
  | leanRight
  | right
  | notAvailable
deriving DecidableEq

/-- The `BiasLabel(value)` enum constructor call: `none` models the
`ValueError` raised on a string that is not one of the six enum values
("Left", "Lean Left", "Center", "Lean Right", "Right", "N/A"). -/
def BiasLabel.ofString? : String → Option BiasLabel
  | "Left" => some .left
  | "Lean Left" => some .leanLeft
  | "Center" => some .center
  | "Lean Right" => some .leanRight
  | "Right" => some .right
  | "N/A" => some .notAvailable
  | _ => none

/-- The `Article` pydantic model of models.py. Field defaults mirror the
source, in particular `processing_status` defaults to `processed`
(models.py line 28: "Default to processed for existing"). -/
structure Article where
  url : String
  headline : String
  summary : String
  tldr_summary : Option String := none
  detailed_summary : Option String := none
  bias_label : BiasLabel := .notAvailable
  topic_tags : List String := []
  keywords : List String := []
  processing_status : ProcessingStatus := .processed
  created_at : Int
  expire_at : Int
deriving DecidableEq

/-- A stored record (a Firestore document dictionary) from which an
`Article` is reconstructed via `Article(**data)`. Optional fields model
keys that may be absent from the stored dictionary; required fields
(`url`, `headline`, `summary`, `created_at`, `expire_at`) have no
default in the pydantic model. -/
structure ArticleDoc where
  url : String
  headline : String
  summary : String
  tldr_summary : Option String := none
  detailed_summary : Option String := none
  bias_label : Option BiasLabel := none
  topic_tags : Option (List String) := none
  keywords : Option (List String) := none
  processing_status : Option ProcessingStatus := none
  created_at : Int
  expire_at : Int
deriving DecidableEq

/-- Pydantic construction `Article(**data)`: absent keys take the model's
declared defaults (models.py lines 19-30). -/
def Article.ofDoc (d : ArticleDoc) : Article :=
  { url := d.url
    headline := d.headline
    summary := d.summary
    tldr_summary := d.tldr_summary
    detailed_summary := d.detailed_summary
    bias_label := d.bias_label.getD .notAvailable
    topic_tags := d.topic_tags.getD []
    keywords := d.keywords.getD []
    processing_status := d.processing_status.getD .processed
    created_at := d.created_at
    expire_at := d.expire_at }

/-! ### Python string-operation models -/

/-- Python slicing `s[:n]` (code points). -/
def pyTake (s : String) (n : Nat) : String :=
  ⟨s.data.take n⟩

/-- Python `len(s)` (code points). -/
def pyLen (s : String) : Nat :=
  s.data.length

/-- Python `s.lower()` restricted to the ASCII texts manipulated here. -/
def pyLower (s : String) : String :=
  ⟨s.data.map Char.toLower⟩

/-- Helper for Python substring membership, on character lists. -/
def pyInAux (pat : List Char) : List Char → Bool
  | [] => pat.isEmpty
  | c :: rest => pat.isPrefixOf (c :: rest) || pyInAux pat rest

/-- Python `pat in hay` for strings (substring containment). -/
def pyIn (pat hay : String) : Bool :=
  pyInAux pat.data hay.data

/-- Python `url.replace("/", "_")` (the pattern is a single character,
so this is a character map). Used by `save_article` in database.py to
derive the Firestore document id. -/
def articleDocId (url : String) : String :=
  ⟨url.data.map (fun c => if c = '/' then '_' else c)⟩

/-- Helper scanning a character list for the network-location part of an
absolute URL: everything after the first "://" up to the next '/', '?'
or '#'. -/
def netlocAux : List Char → List Char
  | ':' :: '/' :: '/' :: rest => rest.takeWhile (fun c => c ≠ '/' ∧ c ≠ '?' ∧ c ≠ '#')
  | _ :: cs => netlocAux cs
  | [] => []

/-- Models `urlparse(url).netloc` for the URL shapes this system handles:
scheme-relative URLs starting with "//" and absolute URLs containing
"://"; other strings have an empty netloc. -/
def netloc (url : String) : String :=
  match url.data with
  | '/' :: '/' :: rest => ⟨rest.takeWhile (fun c => c ≠ '/' ∧ c ≠ '?' ∧ c ≠ '#')⟩
  | l => ⟨netlocAux l⟩

/-- The condition under which `urllib.parse.urlparse(url)` raises:
CPython's `urlsplit` raises `ValueError("Invalid IPv6 URL")` when the
netloc chunk contains '[' without ']' or ']' without '[' (e.g.
"http://[bad"). -/
def urlparseRaises (url : String) : Bool :=
  (((netloc url).data.contains '[') && !((netloc url).data.contains ']'))
    || (((netloc url).data.contains ']') && !((netloc url).data.contains '['))

/-! ### ContentScraper (tools.py `scrape_article_content`) -/

/-- The fixed `BLOCKING_PHRASES` list of tools.py (already lowercase). -/
def BLOCKING_PHRASES : List String :=
  [ "enable javascript", "disable ad blocker", "turn off your ad blocker",
    "subscribe to read", "subscription required", "sign in to continue",
    "you have reached your limit", "access to this content is restricted",
    "please enable cookies" ]

/-- Outcome of the page fetch plus boilerplate-stripping step of
`scrape_article_content`: either the `requests.get`/parsing raised, or it
produced the concatenated paragraph text (before the 5000-char cut). -/
inductive ScrapeFetch where
  | exn
  | page (content : String)

/-- tools.py `scrape_article_content`: truncate the extracted text to
5000 chars; classify as blocked if shorter than 200 chars or containing
a blocking phrase case-insensitively; return the fallback on a blocked
page or a raised fetch, and the text otherwise. -/
def scrape_article_content (fetch : ScrapeFetch) (fallback_summary : String) : String :=
  match fetch with
  | .exn => fallback_summary
  | .page content =>
    let text := pyTake content 5000
    let text_lower := pyLower text
    let is_blocked :=
      if pyLen text < 200 then true
      else BLOCKING_PHRASES.any (fun phrase => pyIn phrase text_lower)
    if is_blocked then fallback_summary else text

/-! ### Store write path (database.py `save_article`) -/

/-- Firestore `doc_ref.set`: upsert at a document id. The store is a list
of (document id, record) pairs. -/
def storeSet (store : List (String × Article)) (k : String) (a : Article) :
    List (String × Article) :=
  if store.any (fun p => p.1 = k) then
    store.map (fun p => if p.1 = k then (k, a) else p)
  else
    store ++ [(k, a)]

/-- Firestore point lookup by document id. -/
def storeGet (store : List (String × Article)) (k : String) : Option Article :=
  (store.find? (fun p => p.1 = k)).map Prod.snd

/-- database.py `save_article`: write the article under the id derived by
`url.replace("/", "_")`. -/
def save_article (store : List (String × Article)) (article : Article) :
    List (String × Article) :=
  storeSet store (articleDocId article.url) article

/-! ### Analyzer (agents.py `AnalystAgent.process_article`)

The scraping / bias-map steps of `process_article` (agents.py lines
114-230) only build the prompt string sent to the external service and
never write to the article; the article mutations are confined to the
no-credential early exit and the final try/except around the
`generate_content` call, modelled by `process_article` below. The bias
block has one escape hatch: `domain` is bound at line 184 inside a try,
so when `urlparse` raises the except at line 207 swallows the
`ValueError` and the prompt f-string at lines 210-214 then raises
`NameError` outside every try, propagating out of the coroutine with
the article unmutated — modelled by `process_article_run`. -/

/-- The fields that the JSON object returned by the text-generation
service may carry; `none` models an absent key, so each `data.get(key,
default)` in the source resolves via `Option.getD`. -/
structure GenData where
  headline : Option String := none
  tldr : Option String := none
  detailed_summary : Option String := none
  bias_label : Option String := none
  topic_tags : Option (List String) := none
  keywords : Option (List String) := none
deriving DecidableEq

/-- Outcome of the `self.model.generate_content(prompt)` call plus the
`json.loads` parse: the call raised (network error), or the (fence
stripped) response text was rejected by `json.loads` or was not a JSON
object, or it parsed to an object with the given fields. -/
inductive GenOutcome where
  | exn
  | nonJson
  | json (d : GenData)
deriving DecidableEq

/-- The success-path body of `process_article`'s final try block
(agents.py lines 239-250): sequential attribute assignments. The
`BiasLabel(data.get("bias_label", "Center"))` call raises on an
unrecognized string; at that point `headline`, `summary`,
`tldr_summary` and `detailed_summary` have already been overwritten,
and the except clause sets the status to failed. Python's
`list(set(article.topic_tags + new_tags))` has unspecified order; it is
modelled as dedup of the concatenation (same element set). -/
def analyzeParsed (article : Article) (d : GenData) : Article :=
  let a1 := { article with headline := d.headline.getD article.headline }
  let a2 := { a1 with summary := d.tldr.getD "" }
  let a3 := { a2 with tldr_summary := some (d.tldr.getD "") }
  let a4 := { a3 with detailed_summary := some (d.detailed_summary.getD "") }
  match BiasLabel.ofString? (d.bias_label.getD "Center") with
  | none => { a4 with processing_status := .failed }
  | some b =>
    let a5 := { a4 with bias_label := b }
    let a6 := { a5 with topic_tags := (a5.topic_tags ++ d.topic_tags.getD []).dedup }
    let a7 := { a6 with keywords := d.keywords.getD [] }
    { a7 with processing_status := .processed }

/-- agents.py `AnalystAgent.process_article`: `hasModel` is whether an
API key was configured (`self.model` non-null). Without a model the
article is immediately failed with placeholder summaries; otherwise the
service outcome decides between the success path and the except clause
that forces status failed. -/
def process_article (hasModel : Bool) (article : Article) (g : GenOutcome) : Article :=
  if !hasModel then
    { article with
        processing_status := .failed
        summary := "Summary unavailable (No API Key)"
        tldr_summary := some "Summary unavailable (No API Key)"
        detailed_summary := some "Summary unavailable (No API Key)" }
  else
    match g with
    | .exn => { article with processing_status := .failed }
    | .nonJson => { article with processing_status := .failed }
    | .json d => analyzeParsed article d

/-- The whole `process_article` coroutine as its awaiter observes it:
after the no-credential early exit, a URL on which `urlparse` raises
leads to the uncaught `NameError` at the prompt f-string (agents.py
lines 210-214) before any service call — the coroutine raises, returning
no article (`none`) and leaving the passed article unmutated; otherwise
the coroutine returns the `process_article` result. -/
def process_article_run (hasModel : Bool) (article : Article) (g : GenOutcome) :
    Option Article :=
  if hasModel && urlparseRaises article.url then none
  else some (process_article hasModel article g)

/-! ### QueueCoordinator per-item run (main.py `process_single`) -/

/-- Outcome of racing the analysis against the 45s per-item
`asyncio.wait_for` deadline in main.py `process_single`: either the wait
timed out, or the await finished — with the service outcome `g` when the
coroutine ran to its return (whether it instead raised is decided by the
article's URL, see `process_article_run`). -/
inductive RunOutcome where
  | timeout
  | completed (g : GenOutcome)
deriving DecidableEq

/-- main.py `process_single` (lines 167-184), restricted to the article
value the store holds after the run: a timeout forces
`processing_status` to failed and persists; a returned analysis persists
the analyzer's result; an exception raised out of the coroutine is
swallowed by the generic `except Exception` at lines 182-184, which sets
no status and saves nothing, so the article stands unchanged. -/
def process_single (hasModel : Bool) (article : Article) (r : RunOutcome) : Article :=
  match r with
  | .timeout => { article with processing_status := .failed }
  | .completed g =>
    match process_article_run hasModel article g with
    | none => article
    | some updated => updated

/-! ### FeedHarvester (agents.py `HarvesterAgent.fetch_new_articles`) -/

/-- A parsed feed entry as `feedparser` delivers it: the two optional
date fields (already reduced to the timestamp that
`datetime(*parsed[:6])` yields), link, title, and the optional
summary/description texts. `entry.get` on an absent key is `none`. -/
structure FeedEntry where
  published_parsed : Option Int := none
  updated_parsed : Option Int := none
  link : String := ""
  title : String := ""
  summary : Option String := none
  description : Option String := none
deriving DecidableEq

/-- Outcome of `feedparser.parse(feed_url)` for one source: the fetch
raised (caught and logged per source), or it produced a list of entries. -/
inductive FeedResult where
  | exn
  | ok (entries : List FeedEntry)
deriving DecidableEq

/-- Python's `a or b` chain on optional strings, where both an absent key
and an empty string are falsy: models
`entry.get("summary") or entry.get("description") or "Summary unavailable"`. -/
def pyStrOr (a : Option String) (b : String) : String :=
  match a with
  | none => b
  | some s => if s = "" then b else s

/-- The per-entry body of the harvest loop (agents.py lines 46-72):
derive the publish time from `published_parsed or updated_parsed`
(skip when neither parses), accept when it is at or after the 48h
cutoff, build the pending draft, and keep it only when both link and
title are non-empty. `now` is the harvest clock: the cutoff is
`now - 48h` and `expire_at` is `now + 7 days`. -/
def harvestEntry (now : Int) (category : String) (e : FeedEntry) : Option Article :=
  match e.published_parsed <|> e.updated_parsed with
  | none => none
  | some t =>
    if t ≥ now - 48 * 3600 then
      let article : Article :=
        { url := e.link
          headline := e.title
          summary := pyStrOr e.summary (pyStrOr e.description "Summary unavailable")
          tldr_summary := none
          detailed_summary := none
          bias_label := .notAvailable
          topic_tags := [category]
          keywords := []
          processing_status := .pending
          created_at := t
          expire_at := now + 7 * 86400 }
      if article.url ≠ "" ∧ article.headline ≠ "" then some article else none
    else none

/-- The inner entry loop: `category_count` is threaded through and the
loop breaks once it reaches `MAX_PER_CATEGORY = 12`. Returns the updated
count and the accepted articles in feed order. -/
def harvestEntries (now : Int) (category : String) :
    Nat → List FeedEntry → Nat × List Article
  | count, [] => (count, [])
  | count, e :: rest =>
    if count ≥ 12 then (count, [])
    else
      match harvestEntry now category e with
      | some a =>
        let (c, arts) := harvestEntries now category (count + 1) rest
        (c, a :: arts)
      | none => harvestEntries now category count rest

/-- The source loop for one category: break once the cap is reached, skip
a source whose parse raised, otherwise run the entry loop and continue
with the updated count. -/
def harvestSources (now : Int) (category : String) :
    Nat → List FeedResult → Nat × List Article
  | count, [] => (count, [])
  | count, src :: rest =>
    if count ≥ 12 then (count, [])
    else
      let (c, arts) :=
        match src with
        | .exn => (count, [])
        | .ok entries => harvestEntries now category count entries
      let (c2, arts2) := harvestSources now category c rest
      (c2, arts ++ arts2)

/-- agents.py `HarvesterAgent.fetch_new_articles`: iterate the
category → sources mapping in order, with a fresh per-category count,
and concatenate the accepted articles. -/
def fetch_new_articles (now : Int) (feeds : List (String × List FeedResult)) :
    List Article :=
  feeds.flatMap (fun cf => (harvestSources now cf.1 0 cf.2).2)

/-- The amended acceptance condition for a feed entry (used to state the
corrected recency-filter claim): the entry has a parseable publish time
`t` with `t ≥ now − 48h` (boundary included) and a non-empty link and
title. -/
def entryEligible (now : Int) (e : FeedEntry) : Bool :=
  match e.published_parsed <|> e.updated_parsed with
  | none => false
  | some t => (t ≥ now - 48 * 3600) && (e.link ≠ "") && (e.title ≠ "")

/-- The articles one source would contribute were there no cap: a source
whose parse raised contributes nothing, a parsed source its accepted
entries in feed order. Used to state the corrected recency/cap claim. -/
def sourceAccepted (now : Int) (category : String) : FeedResult → List Article
  | .exn => []
  | .ok entries => entries.filterMap (harvestEntry now category)

/-! ### Store-layer queries (database.py) -/

/-- A Firestore document as the database.py read paths see it: a
dictionary whose fields are accessed with `data.get`. Enum fields are
serialized as strings in the store; `none` models an absent key. -/
structure Doc where
  url : String := ""
  bias_label : Option String := none
  topic_tags : List String := []
  keywords : List String := []
  processing_status : Option String := none
deriving DecidableEq

/-- database.py `get_pending_articles`: the Firestore query
`where("processing_status", "==", "pending").limit(limit)` over the
store (records in retrieval order). -/
def get_pending_articles (store : List Doc) (limit : Nat) : List Doc :=
  (store.filter (fun d => d.processing_status = some "pending")).take limit

/-! ### SimilarityRanker (database.py `find_similar_articles`) -/

/-- Python `netloc.replace("www.", "")`: delete every non-overlapping
occurrence of "www." left to right. -/
def wwwStripAll : List Char → List Char
  | 'w' :: 'w' :: 'w' :: '.' :: rest => wwwStripAll rest
  | c :: rest => c :: wwwStripAll rest
  | [] => []

/-- The domain derivation `urlparse(url).netloc.replace("www.", "")`
used by both the target and the candidate filter in
`find_similar_articles`. -/
def pyDomain (url : String) : String :=
  ⟨wwwStripAll (netloc url).data⟩

/-- The inner `process_results` helper of `find_similar_articles`:
fold over retrieved docs, skipping those whose URL was already seen and
those whose derived domain equals the target's, appending the rest to
the candidate list (and their URLs to the seen set, modelled as a list). -/
def processResults (targetDomain : String) :
    List String → List Doc → List Doc → List String × List Doc
  | seen, candidates, [] => (seen, candidates)
  | seen, candidates, d :: rest =>
    if d.url ∈ seen then processResults targetDomain seen candidates rest
    else if pyDomain d.url = targetDomain then
      processResults targetDomain seen candidates rest
    else
      processResults targetDomain (seen ++ [d.url]) (candidates ++ [d]) rest

/-- The `diversity_score` closure of `find_similar_articles` (database.py
lines 288-299): sequential `score +=` steps; the keyword and tag
overlaps are Python set intersections, modelled as deduplicated filters. -/
def diversity_score (targetBias : String) (targetKeywords targetTags : List String)
    (article : Doc) : Nat :=
  let score := 0
  let score := if article.bias_label ≠ some targetBias then score + 10 else score
  let score := score + ((article.keywords.filter (· ∈ targetKeywords)).dedup).length * 5
  let score := score + ((article.topic_tags.filter (· ∈ targetTags)).dedup).length
  score

/-- Stable insert for a descending sort by score: the new element goes
before the first element whose score is ≤ its own, so earlier elements
win ties. -/
def insertDesc (score : Doc → Nat) (d : Doc) : List Doc → List Doc
  | [] => [d]
  | b :: rest =>
    if score b ≤ score d then d :: b :: rest else b :: insertDesc score d rest

/-- Python's stable `list.sort(key=score, reverse=True)`: a stable sort
descending by score (extensionally equal to any stable descending sort,
in particular CPython's). -/
def sortByScoreDesc (score : Doc → Nat) : List Doc → List Doc
  | [] => []
  | d :: rest => insertDesc score d (sortByScoreDesc score rest)

/-- The Firestore `array_contains_any` query with a result limit of 20:
docs whose `field` array shares an element with `values`, in retrieval
order. -/
def queryArrayContainsAny (store : List Doc) (field : Doc → List String)
    (values : List String) : List Doc :=
  (store.filter (fun d => (field d).any (fun v => v ∈ values))).take 20

/-- database.py `find_similar_articles`: resolve the target by URL;
return empty when absent or when it has neither tags nor keywords;
retrieve candidates by keyword overlap (first 10 keywords) and, if still
short of `limit`, by tag overlap, each pass filtered by
`process_results`; finally sort stably by `diversity_score` descending
and return the first `limit`. -/
def find_similar_articles (store : List Doc) (article_id : String)
    (limit : Nat) : List Doc :=
  match store.find? (fun d => d.url = article_id) with
  | none => []
  | some target =>
    let target_tags := target.topic_tags
    let target_keywords := target.keywords
    let target_bias := target.bias_label.getD "Center"
    let target_domain := pyDomain target.url
    if target_tags = [] ∧ target_keywords = [] then []
    else
      let seen0 := [target.url]
      let (seen1, cands1) :=
        if target_keywords ≠ [] then
          processResults target_domain seen0 []
            (queryArrayContainsAny store Doc.keywords (target_keywords.take 10))
        else (seen0, ([] : List Doc))
      let (_, cands2) :=
        if cands1.length < limit ∧ target_tags ≠ [] then
          processResults target_domain seen1 cands1
            (queryArrayContainsAny store Doc.topic_tags target_tags)
        else (seen1, cands1)
      (sortByScoreDesc (diversity_score target_bias target_keywords target_tags) cands2).take limit

/-- The candidate list `find_similar_articles` accumulates before the
diversity sort (`candidates` at database.py line 301): introduced so the
ranking theorems can speak about the pre-sort retrieval order. -/
def similarCandidates (store : List Doc) (article_id : String) (limit : Nat) :
    List Doc :=
  match store.find? (fun d => d.url = article_id) with
  | none => []
  | some target =>
    let target_tags := target.topic_tags
    let target_keywords := target.keywords
    let target_domain := pyDomain target.url
    if target_tags = [] ∧ target_keywords = [] then []
    else
      let seen0 := [target.url]
      let (seen1, cands1) :=
        if target_keywords ≠ [] then
          processResults target_domain seen0 []
            (queryArrayContainsAny store Doc.keywords (target_keywords.take 10))
        else (seen0, ([] : List Doc))
      let (_, cands2) :=
        if cands1.length < limit ∧ target_tags ≠ [] then
          processResults target_domain seen1 cands1
            (queryArrayContainsAny store Doc.topic_tags target_tags)
        else (seen1, cands1)
      cands2

/-- Stripping one leading "www." from a domain — the reading of the
specification's "registrable domain (strip a leading www.)", used to
state the domain-exclusion property. -/
def stripLeadingWww (s : String) : String :=
  match s.data with
  | 'w' :: 'w' :: 'w' :: '.' :: rest => ⟨rest⟩
  | _ => s

/-! ## Theorems -/

/-- C9: an `Article` constructed from a stored record with no explicit
`processing_status` key gets status `processed` (never `pending`), so it
is treated as already analyzed. -/
theorem article_default_status_processed (d : ArticleDoc)
    (h : d.processing_status = none) :
    (Article.ofDoc d).processing_status = ProcessingStatus.processed ∧
    (Article.ofDoc d).processing_status ≠ ProcessingStatus.pending := by
  simp [Article.ofDoc, h]

theorem article_default_status_processed_witness :
    ({ url := "https://x.com/1", headline := "H", summary := "S",
       created_at := 0, expire_at := 7 } : ArticleDoc).processing_status = none ∧
    (Article.ofDoc
      { url := "https://x.com/1", headline := "H", summary := "S",
        created_at := 0, expire_at := 7 }).processing_status
      = ProcessingStatus.processed :=
  ⟨rfl,
   (article_default_status_processed
     { url := "https://x.com/1", headline := "H", summary := "S",
       created_at := 0, expire_at := 7 } rfl).1⟩

/-- C10: the document-id derivation `url.replace("/", "_")` is not
injective: the distinct URLs "https://x.com/a/b" and "https://x.com/a_b"
derive the same id, and saving the second article leaves the store with
only the second record — the first is overwritten. -/
theorem doc_id_not_injective :
    ("https://x.com/a/b" : String) ≠ "https://x.com/a_b" ∧
    articleDocId "https://x.com/a/b" = articleDocId "https://x.com/a_b" ∧
    save_article
        (save_article []
          { url := "https://x.com/a/b", headline := "first", summary := "S1",
            created_at := 0, expire_at := 7 })
        { url := "https://x.com/a_b", headline := "second", summary := "S2",
          created_at := 0, expire_at := 7 }
      = [(articleDocId "https://x.com/a/b",
          { url := "https://x.com/a_b", headline := "second", summary := "S2",
            created_at := 0, expire_at := 7 })] := by
  decide

/-- Helper: the value `process_article` returns — when it returns at
all — always carries status processed or failed. -/
theorem process_article_status_total (hasModel : Bool) (article : Article)
    (g : GenOutcome) :
    (process_article hasModel article g).processing_status
        = ProcessingStatus.processed ∨
    (process_article hasModel article g).processing_status
        = ProcessingStatus.failed := by
  cases hasModel
  · exact Or.inr rfl
  · cases g with
    | exn => exact Or.inr rfl
    | nonJson => exact Or.inr rfl
    | json d =>
      rcases hb : BiasLabel.ofString? (d.bias_label.getD "Center") with _ | b
      · exact Or.inr (by simp [process_article, analyzeParsed, hb])
      · exact Or.inl (by simp [process_article, analyzeParsed, hb])

/-- Helper: status totality under the coordinator holds exactly outside
the swallowed-raise path — on a timeout, without a configured model, or
on a URL `urlparse` accepts, the run ends processed or failed; on the
raising path the run hands the article back unchanged. -/
theorem process_single_status_unless_raise (hasModel : Bool)
    (article : Article) (r : RunOutcome) :
    ((hasModel = false ∨ urlparseRaises article.url = false
        ∨ r = RunOutcome.timeout) →
      (process_single hasModel article r).processing_status
          = ProcessingStatus.processed ∨
      (process_single hasModel article r).processing_status
          = ProcessingStatus.failed) ∧
    (∀ g : GenOutcome, r = RunOutcome.completed g → hasModel = true →
      urlparseRaises article.url = true →
      process_single hasModel article r = article) := by
  constructor
  · intro h
    rcases r with _ | g
    · exact Or.inr rfl
    · have hno : hasModel = false ∨ urlparseRaises article.url = false := by
        rcases h with h | h | h
        · exact Or.inl h
        · exact Or.inr h
        · exact absurd h (by simp)
      have hrun : process_article_run hasModel article g
          = some (process_article hasModel article g) := by
        rcases hno with h | h
        · subst h
          rfl
        · unfold process_article_run
          rw [h]
          simp
      have hps : process_single hasModel article (RunOutcome.completed g)
          = process_article hasModel article g := by
        simp [process_single, hrun]
      rw [hps]
      exact process_article_status_total hasModel article g
  · rintro g rfl rfl hraise
    simp [process_single, process_article_run, hraise]

/-- C3 (code bug): on an article whose URL makes `urlparse` raise
("http://[bad" gives ValueError: Invalid IPv6 URL), the analyst
coroutine raises `NameError` out of every try, the coordinator's generic
except swallows it setting no status, and the article that the store
keeps holding is still Pending — the claim (and the spec's intent) says
every run ends Processed or Failed. -/
theorem coordinator_swallowed_raise_leaves_pending :
    urlparseRaises "http://[bad" = true ∧
    (process_single true
        { url := "http://[bad", headline := "H", summary := "S",
          processing_status := ProcessingStatus.pending,
          created_at := 0, expire_at := 7 }
        (RunOutcome.completed GenOutcome.exn)).processing_status
      = ProcessingStatus.pending := by
  decide

/-- C4: whenever the fetch raised, or the extracted (5000-char-truncated)
text is shorter than 200 characters, or it contains a blocking phrase
case-insensitively, the scraper returns the supplied fallback text
unchanged. -/
theorem scraper_blocked_returns_fallback (fetch : ScrapeFetch)
    (fallback : String)
    (h : fetch = ScrapeFetch.exn ∨
         ∃ content, fetch = ScrapeFetch.page content ∧
           (pyLen (pyTake content 5000) < 200 ∨
            ∃ p ∈ BLOCKING_PHRASES,
              pyIn p (pyLower (pyTake content 5000)) = true)) :
    scrape_article_content fetch fallback = fallback := by
  rcases h with rfl | ⟨content, rfl, h⟩
  · rfl
  · rcases h with hlen | ⟨p, hp, hin⟩
    · simp [scrape_article_content, hlen]
    · have hany : BLOCKING_PHRASES.any
          (fun phrase => pyIn phrase (pyLower (pyTake content 5000))) = true :=
        List.any_eq_true.2 ⟨p, hp, hin⟩
      by_cases hl : pyLen (pyTake content 5000) < 200 <;>
        simp [scrape_article_content, hl, hany]

theorem scraper_blocked_returns_fallback_witness :
    pyLen (pyTake "hi" 5000) < 200 ∧
    scrape_article_content (ScrapeFetch.page "hi") "the fallback"
      = "the fallback" :=
  ⟨by decide,
   scraper_blocked_returns_fallback (ScrapeFetch.page "hi") "the fallback"
     (Or.inr ⟨"hi", rfl, Or.inl (by decide)⟩)⟩

/-- C2 counterexample: an Analyzer run that fails only because the
service's `bias_label` string is not a valid enum value does NOT leave
all prior field values untouched — the headline (and the summaries) have
already been overwritten by the response before the enum constructor
raises, even though the status does become failed. -/
theorem analyzer_invalid_enum_mutates_fields :
    (process_article true
        { url := "https://x.com/1", headline := "H", summary := "S",
          processing_status := ProcessingStatus.pending,
          created_at := 0, expire_at := 7 }
        (GenOutcome.json
          { headline := some "New headline", tldr := some "T",
            detailed_summary := some "D",
            bias_label := some "Bogus" })).processing_status
      = ProcessingStatus.failed ∧
    (process_article true
        { url := "https://x.com/1", headline := "H", summary := "S",
          processing_status := ProcessingStatus.pending,
          created_at := 0, expire_at := 7 }
        (GenOutcome.json
          { headline := some "New headline", tldr := some "T",
            detailed_summary := some "D",
            bias_label := some "Bogus" })).headline
      ≠ "H" := by
  decide

/-- C2 (amended): an Analyzer run ending in a network error or malformed
JSON leaves every field untouched except the status, which becomes
failed; a run ending in an invalid `bias_label` enum value also ends
failed with `url`, `bias_label`, `topic_tags`, `keywords` and the
timestamps untouched, but `headline`, `summary`, `tldr_summary` and
`detailed_summary` have already been overwritten with the response's
values. -/
theorem analyzer_exception_effects (article : Article) (g : GenOutcome) :
    ((g = GenOutcome.exn ∨ g = GenOutcome.nonJson) →
      process_article true article g
        = { article with processing_status := ProcessingStatus.failed }) ∧
    (∀ d : GenData, g = GenOutcome.json d →
      BiasLabel.ofString? (d.bias_label.getD "Center") = none →
      process_article true article g
        = { article with
              headline := d.headline.getD article.headline
              summary := d.tldr.getD ""
              tldr_summary := some (d.tldr.getD "")
              detailed_summary := some (d.detailed_summary.getD "")
              processing_status := ProcessingStatus.failed }) := by
  refine ⟨?_, ?_⟩
  · rintro (rfl | rfl) <;> rfl
  · rintro d rfl hb
    simp [process_article, analyzeParsed, hb]

theorem analyzer_exception_effects_witness :
    process_article true
        { url := "https://x.com/1", headline := "H", summary := "S",
          processing_status := ProcessingStatus.pending,
          created_at := 0, expire_at := 7 }
        GenOutcome.exn
      = { url := "https://x.com/1", headline := "H", summary := "S",
          processing_status := ProcessingStatus.failed,
          created_at := 0, expire_at := 7 } :=
  (analyzer_exception_effects
      { url := "https://x.com/1", headline := "H", summary := "S",
        processing_status := ProcessingStatus.pending,
        created_at := 0, expire_at := 7 }
      GenOutcome.exn).1 (Or.inl rfl)

/-- C1 (code bug): the store's pending-article selection
(`get_pending_articles`) only ever returns records whose stored status is
"pending"; a failed record is never part of the batch — evaluated
concretely, a store holding one failed article yields an empty batch.
(The caller in main.py even passes `statuses=["pending", "failed"]`,
a keyword the function does not accept.) -/
theorem get_pending_articles_only_pending :
    (∀ (store : List Doc) (limit : Nat) (d : Doc),
       d ∈ get_pending_articles store limit →
       d.processing_status = some "pending") ∧
    get_pending_articles
        [{ url := "https://x.com/f", processing_status := some "failed" }] 10
      = [] := by
  refine ⟨?_, by decide⟩
  intro store limit d hd
  have hmem : d ∈ store.filter (fun d => d.processing_status = some "pending") :=
    List.take_subset _ _ hd
  simpa using (List.mem_filter.1 hmem).2

theorem get_pending_articles_only_pending_witness :
    ({ url := "https://x.com/p", processing_status := some "pending" } : Doc)
        ∈ get_pending_articles
            [{ url := "https://x.com/p", processing_status := some "pending" }] 10 ∧
    ({ url := "https://x.com/p", processing_status := some "pending" } : Doc).processing_status
        = some "pending" :=
  ⟨by decide,
   get_pending_articles_only_pending.1
     [{ url := "https://x.com/p", processing_status := some "pending" }] 10
     { url := "https://x.com/p", processing_status := some "pending" }
     (by decide)⟩

/-- Helper: per-entry acceptance in the harvest loop coincides with the
amended eligibility condition (parseable date, recency with boundary,
non-empty link and title). -/
theorem harvestEntry_isSome_iff (now : Int) (category : String) (e : FeedEntry) :
    (harvestEntry now category e).isSome = entryEligible now e := by
  unfold harvestEntry entryEligible
  cases e.published_parsed <|> e.updated_parsed with
  | none => rfl
  | some t =>
    dsimp only
    by_cases ht : t ≥ now - 48 * 3600
    · rw [if_pos ht]
      have ht' : now ≤ t + 172800 := by omega
      by_cases hl : e.link = "" <;> by_cases hti : e.title = "" <;>
        simp [hl, hti, ht']
    · rw [if_neg ht]
      have ht' : ¬ now ≤ t + 172800 := by omega
      simp [ht']

/-- C5 counterexample: a feed entry with a parseable publish time equal
to the harvest instant (well inside the 48-hour window) but an empty
link is not included in the harvester's output, so inclusion is not
equivalent to `T ≥ now − 48h` alone. -/
theorem harvester_recent_entry_excluded :
    ((0 : Int) ≥ 0 - 48 * 3600) ∧
    fetch_new_articles 0
        [("Politics",
          [FeedResult.ok [{ published_parsed := some 0, link := "", title := "T" }]])]
      = [] := by
  decide

/-- Helper: an accepted entry's article carries exactly its category as
topic tag. -/
theorem harvestEntry_tags (now : Int) (category : String) (e : FeedEntry)
    (a : Article) (h : harvestEntry now category e = some a) :
    a.topic_tags = [category] := by
  unfold harvestEntry at h
  rcases hopt : e.published_parsed <|> e.updated_parsed with _ | t <;>
    rw [hopt] at h
  · exact absurd h (by simp)
  · dsimp only at h
    by_cases ht : t ≥ now - 48 * 3600
    · rw [if_pos ht] at h
      by_cases hok : e.link ≠ "" ∧ e.title ≠ ""
      · rw [if_pos hok] at h
        cases h
        rfl
      · rw [if_neg hok] at h
        exact absurd h (by simp)
    · rw [if_neg ht] at h
      exact absurd h (by simp)

/-- Helper: one-step equation for the entry loop below the cap, entry
accepted. -/
theorem harvestEntries_cons_accept (now : Int) (category : String)
    (count : Nat) (e : FeedEntry) (rest : List FeedEntry) (a : Article)
    (hc : ¬ count ≥ 12) (hq : harvestEntry now category e = some a) :
    harvestEntries now category count (e :: rest)
      = ((harvestEntries now category (count + 1) rest).1,
         a :: (harvestEntries now category (count + 1) rest).2) := by
  simp only [harvestEntries, hc, if_false, hq]

/-- Helper: one-step equation for the entry loop below the cap, entry
rejected. -/
theorem harvestEntries_cons_skip (now : Int) (category : String)
    (count : Nat) (e : FeedEntry) (rest : List FeedEntry)
    (hc : ¬ count ≥ 12) (hq : harvestEntry now category e = none) :
    harvestEntries now category count (e :: rest)
      = harvestEntries now category count rest := by
  simp only [harvestEntries, hc, if_false, hq]

/-- Helper: one-step equation for the source loop below the cap on a
successfully parsed source. -/
theorem harvestSources_cons_ok (now : Int) (category : String) (count : Nat)
    (entries : List FeedEntry) (rest : List FeedResult)
    (hc : ¬ count ≥ 12) :
    harvestSources now category count (FeedResult.ok entries :: rest)
      = ((harvestSources now category
            (harvestEntries now category count entries).1 rest).1,
         (harvestEntries now category count entries).2
           ++ (harvestSources now category
                (harvestEntries now category count entries).1 rest).2) := by
  simp only [harvestSources, hc, if_false]

/-- Helper: one-step equation for the source loop below the cap on a
source whose parse raised. -/
theorem harvestSources_cons_exn (now : Int) (category : String) (count : Nat)
    (rest : List FeedResult) (hc : ¬ count ≥ 12) :
    harvestSources now category count (FeedResult.exn :: rest)
      = harvestSources now category count rest := by
  simp only [harvestSources, hc, if_false, List.nil_append]

/-- Helper: invariant of the per-category entry loop — the returned count
is the running count plus the number of accepted articles, that sum never
exceeds `max count 12`, and every accepted article is tagged with the
category. -/
theorem harvestEntries_spec (now : Int) (category : String) :
    ∀ (entries : List FeedEntry) (count : Nat),
      (harvestEntries now category count entries).1
          = count + (harvestEntries now category count entries).2.length ∧
      count + (harvestEntries now category count entries).2.length
          ≤ max count 12 ∧
      ∀ a ∈ (harvestEntries now category count entries).2,
        a.topic_tags = [category] := by
  intro entries
  induction entries with
  | nil =>
    intro count
    refine ⟨rfl, ?_, by simp [harvestEntries]⟩
    simp only [harvestEntries, List.length_nil]
    omega
  | cons e rest ih =>
    intro count
    by_cases hc : count ≥ 12
    · have heq : harvestEntries now category count (e :: rest) = (count, []) := by
        simp only [harvestEntries]
        rw [if_pos hc]
      rw [heq]
      refine ⟨rfl, by simp only [List.length_nil]; omega, by simp⟩
    · cases hq : harvestEntry now category e with
      | some a =>
        rw [harvestEntries_cons_accept now category count e rest a hc hq]
        obtain ⟨ih1, ih2, ih3⟩ := ih (count + 1)
        refine ⟨?_, ?_, ?_⟩
        · dsimp only
          simp only [List.length_cons]
          omega
        · dsimp only
          simp only [List.length_cons]
          omega
        · intro x hx
          dsimp only at hx
          rcases List.mem_cons.1 hx with rfl | hx
          · exact harvestEntry_tags now category e x hq
          · exact ih3 x hx
      | none =>
        rw [harvestEntries_cons_skip now category count e rest hc hq]
        exact ih count

/-- Helper: the same invariant lifted to the per-category source loop. -/
theorem harvestSources_spec (now : Int) (category : String) :
    ∀ (srcs : List FeedResult) (count : Nat),
      (harvestSources now category count srcs).1
          = count + (harvestSources now category count srcs).2.length ∧
      count + (harvestSources now category count srcs).2.length
          ≤ max count 12 ∧
      ∀ a ∈ (harvestSources now category count srcs).2,
        a.topic_tags = [category] := by
  intro srcs
  induction srcs with
  | nil =>
    intro count
    refine ⟨rfl, ?_, by simp [harvestSources]⟩
    simp only [harvestSources, List.length_nil]
    omega
  | cons src rest ih =>
    intro count
    by_cases hc : count ≥ 12
    · have heq : harvestSources now category count (src :: rest) = (count, []) := by
        simp only [harvestSources]
        rw [if_pos hc]
      rw [heq]
      refine ⟨rfl, by simp only [List.length_nil]; omega, by simp⟩
    · cases src with
      | exn =>
        rw [harvestSources_cons_exn now category count rest hc]
        exact ih count
      | ok entries =>
        rw [harvestSources_cons_ok now category count entries rest hc]
        obtain ⟨hE1, hE2, hE3⟩ := harvestEntries_spec now category entries count
        obtain ⟨ih1, ih2, ih3⟩ :=
          ih (harvestEntries now category count entries).1
        refine ⟨?_, ?_, ?_⟩
        · dsimp only
          simp only [List.length_append]
          omega
        · dsimp only
          simp only [List.length_append]
          omega
        · intro x hx
          dsimp only at hx
          rcases List.mem_append.1 hx with hx | hx
          · exact hE3 x hx
          · exact ih3 x hx

/-- C6: over any feeds mapping with distinct category names (as a Python
dict has), a single harvest run accepts at most 12 articles tagged with
any given category, however many eligible entries its sources hold. -/
theorem harvester_category_cap (now : Int)
    (feeds : List (String × List FeedResult))
    (hnodup : (feeds.map Prod.fst).Nodup) (category : String) :
    ((fetch_new_articles now feeds).filter
        (fun a => category ∈ a.topic_tags)).length ≤ 12 := by
  induction feeds with
  | nil => simp [fetch_new_articles]
  | cons cf rest ih =>
    rw [List.map_cons, List.nodup_cons] at hnodup
    obtain ⟨hhead, htail⟩ := hnodup
    have hblock := harvestSources_spec now cf.1 cf.2 0
    simp only [fetch_new_articles, List.flatMap_cons, List.filter_append,
      List.length_append] at ih ⊢
    by_cases hcat : cf.1 = category
    · subst hcat
      have hrest :
          ((rest.flatMap fun cf' => (harvestSources now cf'.1 0 cf'.2).2).filter
            (fun a => cf.1 ∈ a.topic_tags)).length = 0 := by
        rw [List.length_eq_zero, List.filter_eq_nil_iff]
        intro a ha
        rcases List.mem_flatMap.1 ha with ⟨cf', hcf', hmem⟩
        have htags := (harvestSources_spec now cf'.1 cf'.2 0).2.2 a hmem
        simp [htags]
        intro hEq
        exact hhead (hEq ▸ List.mem_map_of_mem Prod.fst hcf')
      have hlen : ((harvestSources now cf.1 0 cf.2).2.filter
          (fun a => cf.1 ∈ a.topic_tags)).length
            ≤ (harvestSources now cf.1 0 cf.2).2.length :=
        List.length_filter_le _ _
      have hcap : (harvestSources now cf.1 0 cf.2).2.length ≤ 12 := by
        have := hblock.2.1
        omega
      omega
    · have hzero : ((harvestSources now cf.1 0 cf.2).2.filter
          (fun a => category ∈ a.topic_tags)).length = 0 := by
        rw [List.length_eq_zero, List.filter_eq_nil_iff]
        intro a ha
        have htags := hblock.2.2 a ha
        simp [htags]
        exact fun hEq => hcat hEq.symm
      have := ih htail
      omega

theorem harvester_category_cap_witness :
    (([("Politics", [FeedResult.ok
        [({ published_parsed := some 0, link := "u", title := "T" } : FeedEntry)]])]).map
          Prod.fst).Nodup ∧
    ((fetch_new_articles 0
        [("Politics", [FeedResult.ok
          [{ published_parsed := some 0, link := "u", title := "T" }]])]).filter
        (fun a => "Politics" ∈ a.topic_tags)).length ≤ 12 :=
  ⟨by decide,
   harvester_category_cap 0
     [("Politics", [FeedResult.ok
       [{ published_parsed := some 0, link := "u", title := "T" }]])]
     (by decide) "Politics"⟩

/-- Helper: with `count` already accepted, the entry loop yields exactly
the accepted-entry stream truncated to the remaining cap budget. -/
theorem harvestEntries_take (now : Int) (category : String) :
    ∀ (entries : List FeedEntry) (count : Nat),
      (harvestEntries now category count entries).2
        = (entries.filterMap (harvestEntry now category)).take (12 - count) := by
  intro entries
  induction entries with
  | nil =>
    intro count
    simp [harvestEntries]
  | cons e rest ih =>
    intro count
    by_cases hc : count ≥ 12
    · have heq : harvestEntries now category count (e :: rest) = (count, []) := by
        simp only [harvestEntries]
        rw [if_pos hc]
      have h0 : 12 - count = 0 := by omega
      rw [heq, h0]
      simp
    · cases hq : harvestEntry now category e with
      | some a =>
        rw [harvestEntries_cons_accept now category count e rest a hc hq]
        dsimp only
        rw [ih (count + 1)]
        simp only [List.filterMap_cons, hq]
        have h12 : 12 - count = (12 - (count + 1)) + 1 := by omega
        rw [h12, List.take_succ_cons]
      | none =>
        rw [harvestEntries_cons_skip now category count e rest hc hq]
        rw [ih count]
        simp only [List.filterMap_cons, hq]

/-- Helper: with `count` already accepted, the source loop yields exactly
the concatenated accepted-entry stream of its sources truncated to the
remaining cap budget. -/
theorem harvestSources_take (now : Int) (category : String) :
    ∀ (srcs : List FeedResult) (count : Nat),
      (harvestSources now category count srcs).2
        = (srcs.flatMap (sourceAccepted now category)).take (12 - count) := by
  intro srcs
  induction srcs with
  | nil =>
    intro count
    simp [harvestSources]
  | cons src rest ih =>
    intro count
    by_cases hc : count ≥ 12
    · have heq : harvestSources now category count (src :: rest) = (count, []) := by
        simp only [harvestSources]
        rw [if_pos hc]
      have h0 : 12 - count = 0 := by omega
      rw [heq, h0]
      simp
    · cases src with
      | exn =>
        rw [harvestSources_cons_exn now category count rest hc]
        rw [ih count]
        simp only [List.flatMap_cons, sourceAccepted, List.nil_append]
      | ok entries =>
        rw [harvestSources_cons_ok now category count entries rest hc]
        dsimp only
        obtain ⟨h1, _, _⟩ := harvestEntries_spec now category entries count
        rw [harvestEntries_take now category entries count] at h1 ⊢
        rw [ih (harvestEntries now category count entries).1, h1]
        simp only [List.flatMap_cons, sourceAccepted, List.length_take]
        rw [List.take_append_eq_append_take]
        congr 2
        omega

/-- C5 (amended): every harvest run yields, per category, exactly the
in-order stream of accepted entries of that category's sources truncated
at the per-category cap of 12 — so an entry is included iff it is
eligible AND fewer than 12 of its category were accepted before it —
and an entry is accepted iff its publish time `T` (from
`published_parsed or updated_parsed`) satisfies `T ≥ now − 48h`,
boundary equality included, AND its link and title are non-empty. -/
theorem harvester_recency_amended (now : Int)
    (feeds : List (String × List FeedResult)) :
    fetch_new_articles now feeds
      = feeds.flatMap
          (fun cf => (cf.2.flatMap (sourceAccepted now cf.1)).take 12) ∧
    ∀ (category : String) (e : FeedEntry),
      (harvestEntry now category e).isSome = entryEligible now e := by
  constructor
  · unfold fetch_new_articles
    congr 1
    funext cf
    rw [harvestSources_take now cf.1 cf.2 0, Nat.sub_zero]
  · intro category e
    exact harvestEntry_isSome_iff now category e

/-- Helper: membership in a stable descending insert. -/
theorem mem_insertDesc (score : Doc → Nat) (d x : Doc) (l : List Doc) :
    x ∈ insertDesc score d l ↔ x = d ∨ x ∈ l := by
  induction l with
  | nil => simp [insertDesc]
  | cons b rest ih =>
    by_cases hc : score b ≤ score d
    · simp [insertDesc, hc]
    · simp [insertDesc, hc, ih]
      tauto

/-- Helper: membership in the stable descending sort. -/
theorem mem_sortByScoreDesc (score : Doc → Nat) (x : Doc) (l : List Doc) :
    x ∈ sortByScoreDesc score l ↔ x ∈ l := by
  induction l with
  | nil => simp [sortByScoreDesc]
  | cons d rest ih => simp [sortByScoreDesc, mem_insertDesc, ih]

/-- Helper: inserting into a descending-sorted list keeps it sorted. -/
theorem insertDesc_sorted (score : Doc → Nat) (d : Doc) (l : List Doc)
    (h : l.Pairwise (fun a b => score b ≤ score a)) :
    (insertDesc score d l).Pairwise (fun a b => score b ≤ score a) := by
  induction l with
  | nil => simp [insertDesc]
  | cons b rest ih =>
    rw [List.pairwise_cons] at h
    obtain ⟨hb, hrest⟩ := h
    by_cases hc : score b ≤ score d
    · rw [insertDesc, if_pos hc, List.pairwise_cons]
      refine ⟨?_, ?_⟩
      · intro x hx
        rcases List.mem_cons.1 hx with rfl | hx
        · exact hc
        · exact le_trans (hb x hx) hc
      · rw [List.pairwise_cons]
        exact ⟨hb, hrest⟩
    · rw [insertDesc, if_neg hc, List.pairwise_cons]
      refine ⟨?_, ih hrest⟩
      intro x hx
      rcases (mem_insertDesc score d x rest).1 hx with rfl | hx
      · exact Nat.le_of_lt (Nat.lt_of_not_le hc)
      · exact hb x hx

/-- Helper: the stable sort is descending-sorted. -/
theorem sortByScoreDesc_sorted (score : Doc → Nat) (l : List Doc) :
    (sortByScoreDesc score l).Pairwise (fun a b => score b ≤ score a) := by
  induction l with
  | nil => simp [sortByScoreDesc]
  | cons d rest ih => exact insertDesc_sorted score d _ ih

/-- Helper: the equal-score fiber of a stable descending insert — the
walked-over prefix has strictly larger scores, so the inserted element
lands in front of every tied element. -/
theorem filter_insertDesc (score : Doc → Nat) (d : Doc) (l : List Doc) (v : Nat) :
    (insertDesc score d l).filter (fun x => score x = v)
      = if score d = v then d :: l.filter (fun x => score x = v)
        else l.filter (fun x => score x = v) := by
  induction l with
  | nil =>
    by_cases hv : score d = v <;> simp [insertDesc, hv]
  | cons b rest ih =>
    by_cases hc : score b ≤ score d
    · rw [insertDesc, if_pos hc]
      by_cases hv : score d = v <;> simp [List.filter_cons, hv]
    · rw [insertDesc, if_neg hc]
      have hbd : score d < score b := Nat.lt_of_not_le hc
      by_cases hv : score d = v
      · have hbv : ¬ score b = v := by omega
        simp [List.filter_cons, hbv, ih, hv]
      · by_cases hbv : score b = v <;> simp [List.filter_cons, hbv, ih, hv]

/-- Helper: stability of the sort — for every score value, the tied
elements appear in the sorted list exactly in their original order. -/
theorem sortByScoreDesc_stable (score : Doc → Nat) (l : List Doc) (v : Nat) :
    (sortByScoreDesc score l).filter (fun x => score x = v)
      = l.filter (fun x => score x = v) := by
  induction l with
  | nil => rfl
  | cons d rest ih =>
    rw [sortByScoreDesc, filter_insertDesc]
    by_cases hv : score d = v <;> simp [List.filter_cons, hv, ih]

/-- Helper: everything `process_results` adds beyond the incoming
candidate list has a derived domain different from the target's. -/
theorem mem_processResults (targetDomain : String) :
    ∀ (docs : List Doc) (seen : List String) (cands : List Doc) (x : Doc),
      x ∈ (processResults targetDomain seen cands docs).2 →
      x ∈ cands ∨ pyDomain x.url ≠ targetDomain := by
  intro docs
  induction docs with
  | nil =>
    intro seen cands x hx
    exact Or.inl hx
  | cons d rest ih =>
    intro seen cands x hx
    rw [processResults] at hx
    by_cases h1 : d.url ∈ seen
    · rw [if_pos h1] at hx
      exact ih _ _ x hx
    · rw [if_neg h1] at hx
      by_cases h2 : pyDomain d.url = targetDomain
      · rw [if_pos h2] at hx
        exact ih _ _ x hx
      · rw [if_neg h2] at hx
        rcases ih _ _ x hx with hx' | hx'
        · rcases List.mem_append.1 hx' with h | h
          · exact Or.inl h
          · rw [List.mem_singleton] at h
            subst h
            exact Or.inr h2
        · exact Or.inr hx'

/-- Helper: `find_similar_articles` is the stable descending diversity
sort of the accumulated candidate list, truncated to `limit`. -/
theorem find_similar_articles_eq (store : List Doc) (article_id : String)
    (limit : Nat) (target : Doc)
    (htarget : store.find? (fun d => d.url = article_id) = some target) :
    find_similar_articles store article_id limit
      = (sortByScoreDesc
          (diversity_score (target.bias_label.getD "Center")
            target.keywords target.topic_tags)
          (similarCandidates store article_id limit)).take limit := by
  unfold find_similar_articles similarCandidates
  rw [htarget]
  by_cases h : target.topic_tags = [] ∧ target.keywords = []
  · simp only [if_pos h]
    simp [sortByScoreDesc]
  · simp only [if_neg h]

/-- Helper: every accumulated similarity candidate has a derived domain
different from the target's. -/
theorem mem_similarCandidates_domain (store : List Doc) (article_id : String)
    (limit : Nat) (target : Doc)
    (htarget : store.find? (fun d => d.url = article_id) = some target)
    (x : Doc) (hx : x ∈ similarCandidates store article_id limit) :
    pyDomain x.url ≠ pyDomain target.url := by
  unfold similarCandidates at hx
  rw [htarget] at hx
  dsimp only at hx
  by_cases h : target.topic_tags = [] ∧ target.keywords = []
  · rw [if_pos h] at hx
    exact absurd hx (by simp)
  · rw [if_neg h] at hx
    by_cases h1 : target.keywords ≠ []
    · rw [if_pos h1] at hx
      rcases hp : processResults (pyDomain target.url) [target.url] []
          (queryArrayContainsAny store Doc.keywords (target.keywords.take 10))
        with ⟨seen1, cands1⟩
      rw [hp] at hx
      dsimp only at hx
      have hc1 : ∀ y, y ∈ cands1 → pyDomain y.url ≠ pyDomain target.url := by
        intro y hy
        have hy2 : y ∈ (processResults (pyDomain target.url) [target.url] []
            (queryArrayContainsAny store Doc.keywords (target.keywords.take 10))).2 := by
          rw [hp]
          exact hy
        rcases mem_processResults _ _ _ _ y hy2 with h' | h'
        · exact absurd h' (by simp)
        · exact h'
      by_cases h2 : cands1.length < limit ∧ target.topic_tags ≠ []
      · rw [if_pos h2] at hx
        rcases hq : processResults (pyDomain target.url) seen1 cands1
            (queryArrayContainsAny store Doc.topic_tags target.topic_tags)
          with ⟨seen2, cands2⟩
        rw [hq] at hx
        dsimp only at hx
        have hx2 : x ∈ (processResults (pyDomain target.url) seen1 cands1
            (queryArrayContainsAny store Doc.topic_tags target.topic_tags)).2 := by
          rw [hq]
          exact hx
        rcases mem_processResults _ _ _ _ x hx2 with h' | h'
        · exact hc1 x h'
        · exact h'
      · rw [if_neg h2] at hx
        dsimp only at hx
        exact hc1 x hx
    · rw [if_neg h1] at hx
      dsimp only at hx
      by_cases h2 : ([] : List Doc).length < limit ∧ target.topic_tags ≠ []
      · rw [if_pos h2] at hx
        rcases hq : processResults (pyDomain target.url) [target.url] []
            (queryArrayContainsAny store Doc.topic_tags target.topic_tags)
          with ⟨seen2, cands2⟩
        rw [hq] at hx
        dsimp only at hx
        have hx2 : x ∈ (processResults (pyDomain target.url) [target.url] []
            (queryArrayContainsAny store Doc.topic_tags target.topic_tags)).2 := by
          rw [hq]
          exact hx
        rcases mem_processResults _ _ _ _ x hx2 with h' | h'
        · exact absurd h' (by simp)
        · exact h'
      · rw [if_neg h2] at hx
        dsimp only at hx
        exact absurd hx (by simp)

/-- Helper: stripping every "www." occurrence is insensitive to first
stripping one leading "www.". -/
theorem wwwStripAll_stripLeading (s : String) :
    wwwStripAll (stripLeadingWww s).data = wwwStripAll s.data := by
  unfold stripLeadingWww
  split
  · next rest heq =>
    rw [heq]
    rfl
  · rfl

/-- Helper: equality of leading-"www."-stripped domains implies equality
of the code's replace-all derived domains. -/
theorem pyDomain_eq_of_stripLeading (u u' : String)
    (h : stripLeadingWww (netloc u) = stripLeadingWww (netloc u')) :
    pyDomain u = pyDomain u' := by
  unfold pyDomain
  rw [← wwwStripAll_stripLeading (netloc u),
      ← wwwStripAll_stripLeading (netloc u'), h]

/-- C8: a candidate whose URL has the same registrable domain as the
reference's (netloc compared after stripping a leading "www.") never
appears in the similarity results, whatever its overlap or score. -/
theorem similar_domain_exclusion (store : List Doc) (article_id : String)
    (limit : Nat) (target c : Doc)
    (htarget : store.find? (fun d => d.url = article_id) = some target)
    (hdom : stripLeadingWww (netloc c.url) = stripLeadingWww (netloc target.url)) :
    c ∉ find_similar_articles store article_id limit := by
  intro hc
  rw [find_similar_articles_eq store article_id limit target htarget] at hc
  have hc2 : c ∈ similarCandidates store article_id limit :=
    (mem_sortByScoreDesc _ c _).1 (List.take_subset _ _ hc)
  exact mem_similarCandidates_domain store article_id limit target htarget c hc2
    (pyDomain_eq_of_stripLeading c.url target.url hdom)

theorem similar_domain_exclusion_witness :
    ([({ url := "https://www.example.com/ref", keywords := ["k"],
         topic_tags := ["t"] } : Doc),
      { url := "https://example.com/cand", keywords := ["k"],
        topic_tags := ["t"], bias_label := some "Right" }].find?
        (fun d => d.url = "https://www.example.com/ref")
      = some { url := "https://www.example.com/ref", keywords := ["k"],
               topic_tags := ["t"] }) ∧
    stripLeadingWww (netloc "https://example.com/cand")
      = stripLeadingWww (netloc "https://www.example.com/ref") ∧
    ({ url := "https://example.com/cand", keywords := ["k"],
       topic_tags := ["t"], bias_label := some "Right" } : Doc)
      ∉ find_similar_articles
          [{ url := "https://www.example.com/ref", keywords := ["k"],
             topic_tags := ["t"] },
           { url := "https://example.com/cand", keywords := ["k"],
             topic_tags := ["t"], bias_label := some "Right" }]
          "https://www.example.com/ref" 5 :=
  ⟨by decide, by decide,
   similar_domain_exclusion _ _ 5
     { url := "https://www.example.com/ref", keywords := ["k"],
       topic_tags := ["t"] }
     { url := "https://example.com/cand", keywords := ["k"],
       topic_tags := ["t"], bias_label := some "Right" }
     (by decide) (by decide)⟩

/-- Helper: closed form of the sequential `diversity_score` computation. -/
theorem diversity_score_formula (tb : String) (tk tt : List String) (d : Doc) :
    diversity_score tb tk tt d
      = (if d.bias_label ≠ some tb then 10 else 0)
        + 5 * ((d.keywords.filter (fun k => k ∈ tk)).dedup).length
        + ((d.topic_tags.filter (fun t => t ∈ tt)).dedup).length := by
  unfold diversity_score
  by_cases hb : d.bias_label ≠ some tb <;> simp [hb] <;> omega

/-- C7: for a resolved reference article, (i) each candidate's diversity
score is 10 for a differing bias label plus 5 per shared keyword plus 1
per shared tag; (ii) the returned list is the stable descending sort of
the retrieved candidates truncated to the requested count; (iii) it is
sorted descending by the score; (iv) ties keep the original retrieval
order (the equal-score fibers of the sorted list coincide with those of
the retrieval-ordered candidate list); and (v) of two candidates with
equal keyword and tag overlap, one differing from the reference's bias
and one matching it, the differing one scores strictly higher. -/
theorem diversity_ranking (store : List Doc) (article_id : String)
    (limit : Nat) (target : Doc)
    (htarget : store.find? (fun d => d.url = article_id) = some target) :
    (∀ d : Doc,
      diversity_score (target.bias_label.getD "Center")
          target.keywords target.topic_tags d
        = (if d.bias_label ≠ some (target.bias_label.getD "Center") then 10 else 0)
          + 5 * ((d.keywords.filter (fun k => k ∈ target.keywords)).dedup).length
          + ((d.topic_tags.filter (fun t => t ∈ target.topic_tags)).dedup).length) ∧
    find_similar_articles store article_id limit
      = (sortByScoreDesc
          (diversity_score (target.bias_label.getD "Center")
            target.keywords target.topic_tags)
          (similarCandidates store article_id limit)).take limit ∧
    (find_similar_articles store article_id limit).Pairwise
      (fun a b =>
        diversity_score (target.bias_label.getD "Center")
            target.keywords target.topic_tags b
          ≤ diversity_score (target.bias_label.getD "Center")
              target.keywords target.topic_tags a) ∧
    (∀ v : Nat,
      (sortByScoreDesc
          (diversity_score (target.bias_label.getD "Center")
            target.keywords target.topic_tags)
          (similarCandidates store article_id limit)).filter
        (fun d => diversity_score (target.bias_label.getD "Center")
            target.keywords target.topic_tags d = v)
        = (similarCandidates store article_id limit).filter
            (fun d => diversity_score (target.bias_label.getD "Center")
                target.keywords target.topic_tags d = v)) ∧
    (∀ a b : Doc,
      ((a.keywords.filter (fun k => k ∈ target.keywords)).dedup).length
        = ((b.keywords.filter (fun k => k ∈ target.keywords)).dedup).length →
      ((a.topic_tags.filter (fun t => t ∈ target.topic_tags)).dedup).length
        = ((b.topic_tags.filter (fun t => t ∈ target.topic_tags)).dedup).length →
      a.bias_label ≠ some (target.bias_label.getD "Center") →
      b.bias_label = some (target.bias_label.getD "Center") →
      diversity_score (target.bias_label.getD "Center")
          target.keywords target.topic_tags b
        < diversity_score (target.bias_label.getD "Center")
            target.keywords target.topic_tags a) := by
  refine ⟨?_, ?_, ?_, ?_, ?_⟩
  · intro d
    exact diversity_score_formula _ _ _ d
  · exact find_similar_articles_eq store article_id limit target htarget
  · rw [find_similar_articles_eq store article_id limit target htarget]
    exact (sortByScoreDesc_sorted _ _).sublist (List.take_sublist _ _)
  · intro v
    exact sortByScoreDesc_stable _ _ v
  · intro a b hkw htag hba hbb
    have hbb' : ¬ b.bias_label ≠ some (target.bias_label.getD "Center") :=
      fun hcon => hcon hbb
    rw [diversity_score_formula, diversity_score_formula, hkw, htag,
      if_pos hba, if_neg hbb']
    omega

theorem diversity_ranking_witness :
    ([({ url := "https://one.com/ref", keywords := ["k"], topic_tags := ["t"],
         bias_label := some "Left" } : Doc),
      { url := "https://two.com/a", keywords := ["k"], topic_tags := ["t"],
        bias_label := some "Left" },
      { url := "https://three.com/b", keywords := ["k"], topic_tags := ["t"],
        bias_label := some "Right" }].find?
        (fun d => d.url = "https://one.com/ref")
      = some { url := "https://one.com/ref", keywords := ["k"],
               topic_tags := ["t"], bias_label := some "Left" }) ∧
    find_similar_articles
        [{ url := "https://one.com/ref", keywords := ["k"], topic_tags := ["t"],
           bias_label := some "Left" },
         { url := "https://two.com/a", keywords := ["k"], topic_tags := ["t"],
           bias_label := some "Left" },
         { url := "https://three.com/b", keywords := ["k"], topic_tags := ["t"],
           bias_label := some "Right" }]
        "https://one.com/ref" 5
      = (sortByScoreDesc
          (diversity_score "Left" ["k"] ["t"])
          (similarCandidates
            [{ url := "https://one.com/ref", keywords := ["k"], topic_tags := ["t"],
               bias_label := some "Left" },
             { url := "https://two.com/a", keywords := ["k"], topic_tags := ["t"],
               bias_label := some "Left" },
             { url := "https://three.com/b", keywords := ["k"], topic_tags := ["t"],
               bias_label := some "Right" }]
            "https://one.com/ref" 5)).take 5 :=
  ⟨by decide,
   (diversity_ranking
     [{ url := "https://one.com/ref", keywords := ["k"], topic_tags := ["t"],
        bias_label := some "Left" },
      { url := "https://two.com/a", keywords := ["k"], topic_tags := ["t"],
        bias_label := some "Left" },
      { url := "https://three.com/b", keywords := ["k"], topic_tags := ["t"],
        bias_label := some "Right" }]
     "https://one.com/ref" 5
     { url := "https://one.com/ref", keywords := ["k"], topic_tags := ["t"],
       bias_label := some "Left" }
     (by decide)).2.1⟩

end Newsfeed
